import Mathlib

/-!
Verification of the tool-calling router demonstrated in `src/3-tool.ipynb`
of the langchain-study repository, against its natural-language
specification.  The tools (`negative_comment`, `positive_comment`), the
catalog renderer output and the manual dispatch chain (`tool_chain`,
`tool_map`) are embedded from the notebook source; the registry,
dispatcher and decision-parser contracts that the spec adds as a design
(typed errors, argument validation, JSON decision parsing) are modelled
from the spec where the source has no corresponding code.
-/

namespace ToolRouter

/-- JSON primitive values, the value forms that can appear in a model
decision's `arguments` object. -/
inductive JPrim where
  | jstr (s : String)
  | jnum (n : Int)
  | jbool (b : Bool)
  | jnull
deriving DecidableEq

/-- A tool definition: name, description, ordered parameter schema of
(paramName, type) pairs, return type, and the implementation.  The
implementation receives the argument values as a list (in parameter-schema
order) and may fail, which models the underlying call raising. -/
structure ToolSpec where
  name : String
  description : String
  params : List (String × String)
  returnType : String
  implementation : List JPrim → Option String

/-- Embeds `negative_comment` from `src/3-tool.ipynb`: returns
the game name followed by a fixed negative phrase. -/
def negative_comment (game : String) : String :=
  game ++ " seems not better than Genshin Impact..."

/-- Embeds `positive_comment` from `src/3-tool.ipynb`: returns
the game name followed by a fixed positive phrase. -/
def positive_comment (game : String) : String :=
  game ++ " is the best game in the world !!!"

/-- The `@tool`-decorated `negative_comment` as a tool spec: its name,
docstring description, single `game: str` parameter and `str` return type
are taken from the notebook's printed `name`/`description`/`args` output.
The implementation accepts exactly one string argument, as the Python
signature `negative_comment(game: str)` does. -/
def negative_comment_tool : ToolSpec :=
  { name := "negative_comment"
  , description := "Give negative comment to this game."
  , params := [("game", "str")]
  , returnType := "str"
  , implementation := fun args =>
      match args with
      | [JPrim.jstr g] => some (negative_comment g)
      | _ => none }

/-- The `@tool`-decorated `positive_comment` as a tool spec. -/
def positive_comment_tool : ToolSpec :=
  { name := "positive_comment"
  , description := "Give positive comment to this game."
  , params := [("game", "str")]
  , returnType := "str"
  , implementation := fun args =>
      match args with
      | [JPrim.jstr g] => some (positive_comment g)
      | _ => none }

/-- Embeds the notebook's `tools = [negative_comment, positive_comment]`. -/
def tools : List ToolSpec := [negative_comment_tool, positive_comment_tool]

/-- First-match association-list lookup, the mapping access used for
decision fields and argument values. -/
def alookup {α : Type} (k : String) : List (String × α) → Option α
  | [] => none
  | (k1, v) :: rest => if k1 = k then some v else alookup k rest

/-- Embeds the notebook's `tool_map = {tool.name: tool for tool in tools}`
followed by `tool_map[name]`: a Python dict comprehension keeps the last
binding for a repeated key, so lookup scans the reversed list; a missing
key (Python `KeyError`) is `none`. -/
def tool_map (n : String) : Option ToolSpec :=
  tools.reverse.find? (fun t => t.name == n)

/-- Bind an arguments object to a parameter schema: the value list handed
to the implementation, in parameter-schema order.  A name missing from the
arguments binds `jnull` (the dispatcher validates before invoking, so a
validated call never sees it). -/
def bindArgs (params : List (String × String)) (args : List (String × JPrim)) :
    List JPrim :=
  params.map (fun p => (alookup p.1 args).getD JPrim.jnull)

/-- One field of a parsed model output: a primitive (e.g. the `name`
string) or a nested object of primitives (the `arguments` object). -/
inductive JField where
  | fprim (v : JPrim)
  | fobj (fields : List (String × JPrim))
deriving DecidableEq

/-- Embeds `tool_chain` from `src/3-tool.ipynb` together with the
invocation of the runnable it returns: look up `model_output['name']` in
`tool_map` (a miss is a `KeyError`, hence `none`), take
`model_output['arguments']`, and invoke the chosen tool with them; the
tool binds the argument dict to its declared parameters by name, ignoring
undeclared extras. -/
def tool_chain (model_output : List (String × JField)) : Option String :=
  match alookup "name" model_output with
  | some (JField.fprim (JPrim.jstr n)) =>
    match tool_map n with
    | some chosen_tool =>
      match alookup "arguments" model_output with
      | some (JField.fobj args) =>
          chosen_tool.implementation (bindArgs chosen_tool.params args)
      | _ => none
    | none => none
  | _ => none

/-- Modelled from the spec: the error taxonomy of §7 (the source has no
typed errors; its failures are uncaught Python exceptions). -/
inductive RouterError where
  | duplicateTool (n : String)
  | unknownTool (n : String)
  | argumentMismatch (missing extra : List String)
  | toolExecution
  | malformedDecision
deriving DecidableEq

/-- A model decision: the chosen tool name and the arguments object. -/
structure Decision where
  toolName : String
  arguments : List (String × JPrim)
deriving DecidableEq

/-- A successful dispatch: the decision together with the tool output. -/
structure DispatchResult where
  decision : Decision
  output : String

/-- Modelled from the spec: `ToolRegistry.lookup` of §4.1 (the source has
only the per-call `tool_map` dict).  A registry is the list of registered
specs in insertion order; lookup returns the first spec with the name. -/
def lookup (reg : List ToolSpec) (n : String) : Option ToolSpec :=
  reg.find? (fun t => t.name == n)

/-- Modelled from the spec: `ToolRegistry.register` of §4.1, which fails
with `DuplicateToolError` on an already-present name instead of silently
overwriting as the source's dict comprehension would. -/
def register (spec : ToolSpec) (reg : List ToolSpec) :
    Except RouterError (List ToolSpec) :=
  if (lookup reg spec.name).isSome then
    Except.error (RouterError.duplicateTool spec.name)
  else
    Except.ok (reg ++ [spec])

/-- The parameter names a decision's arguments fail to supply. -/
def missingParams (params : List (String × String))
    (args : List (String × JPrim)) : List String :=
  (params.map Prod.fst).filter (fun p => (alookup p args).isNone)

/-- The argument keys a decision supplies beyond the declared parameters. -/
def extraArgs (params : List (String × String))
    (args : List (String × JPrim)) : List String :=
  (args.map Prod.fst).filter (fun k => !((params.map Prod.fst).contains k))

/-- Modelled from the spec: the `dispatch` contract of §4.4 (the source's
`tool_chain` performs no validation and has no typed errors).  Resolve the
tool name, validate that the argument keys exactly match the declared
parameters, and invoke the implementation with the values bound in
parameter-schema order.  The second component is the invocation trace:
one entry per implementation actually invoked, recording the tool name
and the bound argument list, so that non-execution on the error paths is
observable. -/
def dispatch (d : Decision) (reg : List ToolSpec) :
    Except RouterError DispatchResult × List (String × List JPrim) :=
  match lookup reg d.toolName with
  | none => (Except.error (RouterError.unknownTool d.toolName), [])
  | some spec =>
    let miss := missingParams spec.params d.arguments
    let ext := extraArgs spec.params d.arguments
    if miss = [] ∧ ext = [] then
      let bound := bindArgs spec.params d.arguments
      match spec.implementation bound with
      | some out => (Except.ok ⟨d, out⟩, [(spec.name, bound)])
      | none => (Except.error RouterError.toolExecution, [(spec.name, bound)])
    else
      (Except.error (RouterError.argumentMismatch miss ext), [])

/-- Render one parameter list as `p1: t1, p2: t2, ...`. -/
def renderParams : List (String × String) → String
  | [] => ""
  | [(n, t)] => n ++ ": " ++ t
  | (n, t) :: rest => n ++ ": " ++ t ++ ", " ++ renderParams rest

/-- The catalog line for one tool, in the format recorded by the
notebook's `rendered_tools` output literal:
`name(p1: t1, ...) -> returnType - description`. -/
def renderLine (t : ToolSpec) : String :=
  t.name ++ "(" ++ renderParams t.params ++ ") -> " ++ t.returnType
    ++ " - " ++ t.description

/-- Embeds `render_text_description` as evidenced by the notebook's
`rendered_tools` output literal: one catalog line per tool, joined with
newlines in input order. -/
def render_text_description : List ToolSpec → String
  | [] => ""
  | [t] => renderLine t
  | t :: rest => renderLine t ++ "\n" ++ render_text_description rest

/-- The catalog line format as the spec's §4.2 words it:
`name(param1: type1, param2: type2, ...) -> description`. -/
def renderLineClaim (t : ToolSpec) : String :=
  t.name ++ "(" ++ renderParams t.params ++ ") -> " ++ t.description

/-- The §4.2 renderer as the spec words it, for comparison with the
renderer evidenced by the source. -/
def renderClaim (ts : List ToolSpec) : String :=
  String.intercalate "\n" (ts.map renderLineClaim)

/-- Test fixture: a two-parameter tool, used to exhibit that argument
binding follows parameter-schema order rather than the order of the keys
in the arguments object. -/
def concat_tool : ToolSpec :=
  { name := "concat"
  , description := "Concatenate a and b."
  , params := [("a", "str"), ("b", "str")]
  , returnType := "str"
  , implementation := fun args =>
      match args with
      | [JPrim.jstr a, JPrim.jstr b] => some (a ++ b)
      | _ => none }

/-- The opening-brace character, written by code point. -/
def lbrace : Char := Char.ofNat 123

/-- The closing-brace character, written by code point. -/
def rbrace : Char := Char.ofNat 125

/-- JSON string-content encoding: quote and backslash are escaped with a
backslash, every other character stands for itself. -/
def encodeStr : List Char → List Char
  | [] => []
  | c :: rest =>
    (if c = '\"' ∨ c = '\\' then ['\\', c] else [c]) ++ encodeStr rest

/-- Decimal digit character for a digit value. -/
def digitToChar (d : Nat) : Char := Char.ofNat (48 + d)

/-- Digit value of a decimal digit character. -/
def charToDigit (c : Char) : Nat := c.toNat - 48

/-- Whether a character is a decimal digit. -/
def isDigitChar (c : Char) : Bool := 48 ≤ c.toNat && c.toNat ≤ 57

/-- Decimal digits of a positive natural number, most significant first;
the fuel bounds the number of digits and any fuel of at least the number
itself is enough. -/
def natToCharsAux : Nat → Nat → List Char
  | 0, _ => []
  | fuel + 1, n =>
    if n = 0 then [] else natToCharsAux fuel (n / 10) ++ [digitToChar (n % 10)]

/-- Decimal representation of a natural number, most significant digit
first. -/
def natToChars (n : Nat) : List Char :=
  if n = 0 then ['0'] else natToCharsAux n n

/-- Decimal representation of an integer. -/
def intToChars (n : Int) : List Char :=
  if n < 0 then '-' :: natToChars n.natAbs else natToChars n.natAbs

/-- Natural number denoted by a list of decimal digit characters. -/
def charsToNat (ds : List Char) : Nat :=
  Nat.ofDigits 10 ((ds.map charToDigit).reverse)

/-- Serialize one JSON primitive. -/
def serializeJPrim : JPrim → List Char
  | JPrim.jstr s => '\"' :: (encodeStr s.data ++ ['\"'])
  | JPrim.jnum n => intToChars n
  | JPrim.jbool true => ['t', 'r', 'u', 'e']
  | JPrim.jbool false => ['f', 'a', 'l', 's', 'e']
  | JPrim.jnull => ['n', 'u', 'l', 'l']

/-- Serialize an arguments object's field list in `"key": value` form,
comma-and-space separated, as Python's `json.dumps` renders a dict body. -/
def serializeArgs : List (String × JPrim) → List Char
  | [] => []
  | [(k, v)] =>
      '\"' :: (encodeStr k.data ++ '\"' :: ':' :: ' ' :: serializeJPrim v)
  | (k, v) :: rest =>
      '\"' :: (encodeStr k.data ++ '\"' :: ':' :: ' ' :: serializeJPrim v
        ++ ',' :: ' ' :: serializeArgs rest)

/-- Modelled from the spec: the decision serialization `stringify` named
by §8's round-trip property (the notebook's decisions print in exactly
this JSON form), producing
`\x7b"name": <toolName>, "arguments": \x7b...\x7d\x7d`. -/
def stringify (d : Decision) : String :=
  String.mk (lbrace :: '\"' :: (encodeStr "name".data ++ '\"' :: ':' :: ' ' ::
    (serializeJPrim (JPrim.jstr d.toolName) ++ ',' :: ' ' :: '\"' ::
      (encodeStr "arguments".data ++ '\"' :: ':' :: ' ' :: lbrace ::
        (serializeArgs d.arguments ++ [rbrace, rbrace])))))

/-- Whether a character is JSON insignificant whitespace. -/
def isWsChar (c : Char) : Bool :=
  c == ' ' || c == '\n' || c == '\t' || c == '\r'

/-- Drop leading whitespace. -/
def skipWs (l : List Char) : List Char := l.dropWhile isWsChar

/-- Parse a JSON string body after its opening quote: content up to the
unescaped closing quote, a backslash taking the next character literally;
returns the content and the input after the closing quote.  The flag
records that the previous character was an unconsumed backslash. -/
def parseStrBodyAux : Bool → List Char → Option (List Char × List Char)
  | _, [] => none
  | true, c :: rest =>
    match parseStrBodyAux false rest with
    | some (s, r) => some (c :: s, r)
    | none => none
  | false, c :: rest =>
    if c = '\"' then some ([], rest)
    else if c = '\\' then parseStrBodyAux true rest
    else
      match parseStrBodyAux false rest with
      | some (s, r) => some (c :: s, r)
      | none => none

/-- Parse a JSON string body after its opening quote. -/
def parseStrBody (l : List Char) : Option (List Char × List Char) :=
  parseStrBodyAux false l

/-- Skip whitespace, then consume the expected character. -/
def expectChar (c : Char) (l : List Char) : Option (List Char) :=
  match skipWs l with
  | c1 :: r => if c1 = c then some r else none
  | [] => none

/-- Parse one JSON primitive value: a string, an integer, `true`,
`false` or `null`; returns the value and the rest of the input. -/
def parseJPrim (l : List Char) : Option (JPrim × List Char) :=
  match l with
  | [] => none
  | c :: rest =>
    if c = '\"' then
      match parseStrBody rest with
      | some (s, r) => some (JPrim.jstr (String.mk s), r)
      | none => none
    else if c = '-' then
      match rest.takeWhile isDigitChar with
      | [] => none
      | ds => some (JPrim.jnum (-(charsToNat ds : Int)), rest.dropWhile isDigitChar)
    else if isDigitChar c then
      some (JPrim.jnum (charsToNat (l.takeWhile isDigitChar)), l.dropWhile isDigitChar)
    else if l.take 4 = ['t', 'r', 'u', 'e'] then some (JPrim.jbool true, l.drop 4)
    else if l.take 5 = ['f', 'a', 'l', 's', 'e'] then some (JPrim.jbool false, l.drop 5)
    else if l.take 4 = ['n', 'u', 'l', 'l'] then some (JPrim.jnull, l.drop 4)
    else none

/-- Parse the non-empty pair list of an arguments object, positioned after
the object's opening brace: repeatedly a quoted key, a colon, a primitive
value, then either a comma and further pairs or the closing brace.  The
fuel bounds the number of pairs; callers pass at least the input length,
which never runs out because each pair consumes input. -/
def parsePairsLoop : Nat → List Char → Option (List (String × JPrim) × List Char)
  | 0, _ => none
  | fuel + 1, l =>
    match skipWs l with
    | c0 :: r0 =>
      if c0 = '\"' then
        match parseStrBody r0 with
        | some (k, r1) =>
          match expectChar ':' r1 with
          | some r2 =>
            match parseJPrim (skipWs r2) with
            | some (v, r3) =>
              match skipWs r3 with
              | c4 :: r4 =>
                if c4 = ',' then
                  match parsePairsLoop fuel r4 with
                  | some (ps, r5) => some ((String.mk k, v) :: ps, r5)
                  | none => none
                else if c4 = rbrace then some ([(String.mk k, v)], r4)
                else none
              | [] => none
            | none => none
          | none => none
        | none => none
      else none
    | [] => none

/-- Parse a whole arguments object: the opening brace, then either an
immediate closing brace (empty object) or the pair list. -/
def parseArgsObj (l : List Char) : Option (List (String × JPrim) × List Char) :=
  match skipWs l with
  | c0 :: r0 =>
    if c0 = lbrace then
      match skipWs r0 with
      | c1 :: r1 =>
        if c1 = rbrace then some ([], r1)
        else parsePairsLoop (r0.length + 1) r0
      | [] => none
    else none
  | [] => none

/-- Consume a quoted key equal to `key` followed by a colon. -/
def parseKeyColon (key : List Char) (l : List Char) : Option (List Char) :=
  match expectChar '\"' l with
  | some r0 =>
    match parseStrBody r0 with
    | some (k, r1) => if k = key then expectChar ':' r1 else none
    | none => none
  | none => none

/-- Parse a decision from raw model output: skip any leading prose up to
the first opening brace, then read an object with a `name` string and an
`arguments` object of primitives, in that order; trailing text after the
object is ignored. -/
def parseDecisionChars (l : List Char) : Option Decision :=
  match l.dropWhile (fun c => !(c == lbrace)) with
  | c0 :: r0 =>
    if c0 = lbrace then
      match parseKeyColon "name".data r0 with
      | some r1 =>
        match parseJPrim (skipWs r1) with
        | some (JPrim.jstr toolName, r2) =>
          match expectChar ',' r2 with
          | some r3 =>
            match parseKeyColon "arguments".data r3 with
            | some r4 =>
              match parseArgsObj r4 with
              | some (args, r5) =>
                match expectChar rbrace r5 with
                | some _ => some (Decision.mk toolName args)
                | none => none
              | none => none
            | none => none
          | none => none
        | _ => none
      | none => none
    else none
  | [] => none

/-- Modelled from the spec: the §4.3 Decision Parser `parse` (the source
delegates to the library's `JsonOutputParser`, whose code is not in this
repository).  Raw model output is parsed tolerating surrounding prose and
whitespace around the JSON payload; failure to find a well-formed decision
object is `MalformedDecisionError`. -/
def parse (raw : String) : Except RouterError Decision :=
  match parseDecisionChars raw.data with
  | some d => Except.ok d
  | none => Except.error RouterError.malformedDecision

/-- The raw model text of the spec's Scenario D: prose and a fenced code
block around the decision JSON. -/
def scenarioD : String :=
  "Sure! ```json\n\x7b\"name\": \"negative_comment\", \"arguments\": \x7b\"game\": \"DotA2\"\x7d\x7d\n```"

theorem intercalate_go_cons (s : String) :
    ∀ (l : List String) (a b : String),
      String.intercalate.go a s (b :: l) = a ++ s ++ String.intercalate.go b s l := by
  intro l
  induction l with
  | nil => intro a b; simp [String.intercalate.go]
  | cons c l ih =>
    intro a b
    have h1 : String.intercalate.go a s (b :: c :: l) =
        String.intercalate.go (a ++ s ++ b) s (c :: l) := rfl
    rw [h1, ih, ih]
    simp [String.append_assoc]

example : render_text_description [negative_comment_tool] =
    "negative_comment(game: str) -> str - Give negative comment to this game." := by
  rfl

example : negative_comment "Zelda" = "Zelda seems not better than Genshin Impact..." := rfl

example : (dispatch ⟨"negative_comment", [("game", JPrim.jstr "Zelda")]⟩ tools).1 =
    Except.ok ⟨⟨"negative_comment", [("game", JPrim.jstr "Zelda")]⟩,
      "Zelda seems not better than Genshin Impact..."⟩ := rfl

example : (dispatch ⟨"translate_comment", [("game", JPrim.jstr "Zelda")]⟩ tools) =
    (Except.error (RouterError.unknownTool "translate_comment"), []) := rfl

example : tool_chain [("name", JField.fprim (JPrim.jstr "positive_comment")),
    ("arguments", JField.fobj [("game", JPrim.jstr "Zelda")])] =
    some "Zelda is the best game in the world !!!" := rfl

/-- C1: for every decision whose tool name is registered and whose
arguments exactly match the tool's declared parameters (nothing missing,
nothing extra), `dispatch` returns exactly the output of invoking the
tool's implementation directly with the same arguments. -/
theorem dispatch_roundtrip (d : Decision) (reg : List ToolSpec)
    (spec : ToolSpec) (out : String)
    (h1 : lookup reg d.toolName = some spec)
    (h2 : missingParams spec.params d.arguments = [])
    (h3 : extraArgs spec.params d.arguments = [])
    (h4 : spec.implementation (bindArgs spec.params d.arguments) = some out) :
    (dispatch d reg).1 = Except.ok ⟨d, out⟩ := by
  unfold dispatch
  rw [h1]
  simp only [h2, h3, and_self, if_true, h4]

/-- Witness for C1 at Scenario A's input: the decision naming
`negative_comment` with argument `game = "Zelda"` dispatches to the output
of invoking `negative_comment` directly. -/
theorem dispatch_roundtrip_witness :
    (dispatch ⟨"negative_comment", [("game", JPrim.jstr "Zelda")]⟩ tools).1 =
      Except.ok ⟨⟨"negative_comment", [("game", JPrim.jstr "Zelda")]⟩,
        negative_comment "Zelda"⟩ :=
  dispatch_roundtrip _ tools negative_comment_tool _ rfl rfl rfl rfl

/-- C2: a decision whose tool name is not registered makes `dispatch`
fail with `UnknownToolError` naming it, and no tool implementation is
invoked (the invocation trace is empty). -/
theorem dispatch_unknown_tool (d : Decision) (reg : List ToolSpec)
    (h : lookup reg d.toolName = none) :
    (dispatch d reg).1 = Except.error (RouterError.unknownTool d.toolName)
      ∧ (dispatch d reg).2 = [] := by
  unfold dispatch
  rw [h]
  exact ⟨rfl, rfl⟩

/-- Witness for C2 at Scenario C's input: `translate_comment` is not in
the registry holding `negative_comment` and `positive_comment`, so
dispatch fails with `UnknownToolError` and the invocation trace is empty. -/
theorem dispatch_unknown_tool_witness :
    (dispatch ⟨"translate_comment", [("game", JPrim.jstr "Zelda")]⟩ tools).1 =
      Except.error (RouterError.unknownTool "translate_comment")
      ∧ (dispatch ⟨"translate_comment", [("game", JPrim.jstr "Zelda")]⟩ tools).2 = [] :=
  dispatch_unknown_tool ⟨"translate_comment", [("game", JPrim.jstr "Zelda")]⟩ tools rfl

/-- C3: registering a spec and then registering any spec of the same name
fails with `DuplicateToolError`, and lookup of that name in the registry
still returns the first registration's spec unchanged. -/
theorem register_duplicate (spec1 spec2 : ToolSpec)
    (reg0 reg1 : List ToolSpec)
    (hname : spec2.name = spec1.name)
    (h1 : register spec1 reg0 = Except.ok reg1) :
    register spec2 reg1 = Except.error (RouterError.duplicateTool spec2.name)
      ∧ lookup reg1 spec1.name = some spec1 := by
  unfold register at h1
  by_cases hfree : (lookup reg0 spec1.name).isSome
  · rw [if_pos hfree] at h1
    exact absurd h1 (by simp)
  · rw [if_neg hfree] at h1
    have hreg : reg1 = reg0 ++ [spec1] := by
      injection h1 with h
      exact h.symm
    have hnone : lookup reg0 spec1.name = none :=
      Option.not_isSome_iff_eq_none.mp hfree
    have hlook : lookup reg1 spec1.name = some spec1 := by
      rw [hreg]
      unfold lookup at hnone ⊢
      rw [List.find?_append, hnone]
      simp
    refine ⟨?_, hlook⟩
    unfold register
    rw [if_pos (by rw [hname, hlook]; rfl)]

/-- Witness for C3: with `negative_comment` already registered, a second
registration under the same name fails with `DuplicateToolError` and the
original spec is still the one retrieved. -/
theorem register_duplicate_witness :
    register { positive_comment_tool with name := "negative_comment" }
        [negative_comment_tool]
      = Except.error (RouterError.duplicateTool "negative_comment")
    ∧ lookup [negative_comment_tool] "negative_comment" = some negative_comment_tool :=
  register_duplicate negative_comment_tool
    { positive_comment_tool with name := "negative_comment" }
    [] [negative_comment_tool] rfl rfl

/-- C4 counterexample: on the notebook's own tool, the renderer evidenced
by the source (`negative_comment(game: str) -> str - Give negative comment
to this game.`) does not produce the spec's claimed line format
`name(param1: type1, ...) -> description`, because the source line carries
the return type and a ` - ` separator between the arrow and the
description. -/
theorem render_format_counterexample :
    render_text_description [negative_comment_tool]
      ≠ renderClaim [negative_comment_tool] := by
  decide

/-- C4 amended: `render_text_description` produces exactly one line per
tool, newline-joined in input order, each line of the form
`name(param1: type1, param2: type2, ...) -> returnType - description`;
it is a pure function of its input, hence deterministic. -/
theorem render_characterization (ts : List ToolSpec) :
    render_text_description ts = String.intercalate "\n" (ts.map renderLine) := by
  induction ts with
  | nil => rfl
  | cons t rest ih =>
    cases rest with
    | nil => rfl
    | cons u rest2 =>
      show renderLine t ++ "\n" ++ render_text_description (u :: rest2) = _
      rw [ih]
      show _ = String.intercalate.go (renderLine t) "\n" (renderLine u :: rest2.map renderLine)
      rw [intercalate_go_cons]
      rfl

/-- C5: when the tool name resolves but the arguments object misses a
declared parameter, `dispatch` fails with `ArgumentMismatchError` whose
missing list names that parameter; when it carries an undeclared extra
key, `dispatch` fails with `ArgumentMismatchError` whose extra list names
that key; in both cases the invocation trace is empty, so no
implementation was invoked. -/
theorem dispatch_argument_mismatch (d : Decision) (reg : List ToolSpec)
    (spec : ToolSpec)
    (h1 : lookup reg d.toolName = some spec) :
    (∀ pname ∈ spec.params.map Prod.fst, alookup pname d.arguments = none →
      (dispatch d reg).1 = Except.error (RouterError.argumentMismatch
          (missingParams spec.params d.arguments) (extraArgs spec.params d.arguments))
        ∧ pname ∈ missingParams spec.params d.arguments
        ∧ (dispatch d reg).2 = [])
    ∧ (∀ k ∈ d.arguments.map Prod.fst, k ∉ spec.params.map Prod.fst →
      (dispatch d reg).1 = Except.error (RouterError.argumentMismatch
          (missingParams spec.params d.arguments) (extraArgs spec.params d.arguments))
        ∧ k ∈ extraArgs spec.params d.arguments
        ∧ (dispatch d reg).2 = []) := by
  constructor
  · intro pname hmem hnone
    have hin : pname ∈ missingParams spec.params d.arguments := by
      unfold missingParams
      exact List.mem_filter.mpr ⟨hmem, by rw [hnone]; rfl⟩
    have hne : ¬ (missingParams spec.params d.arguments = []
        ∧ extraArgs spec.params d.arguments = []) := by
      intro hcon
      exact List.ne_nil_of_mem hin hcon.1
    refine ⟨?_, hin, ?_⟩ <;>
      · unfold dispatch
        rw [h1]
        simp only [if_neg hne]
  · intro k hkmem hknot
    have hin : k ∈ extraArgs spec.params d.arguments := by
      unfold extraArgs
      refine List.mem_filter.mpr ⟨hkmem, ?_⟩
      have : (spec.params.map Prod.fst).contains k = false := by
        by_contra hc
        exact hknot (List.elem_iff.mp (by simpa using hc))
      rw [this]
      rfl
    have hne : ¬ (missingParams spec.params d.arguments = []
        ∧ extraArgs spec.params d.arguments = []) := by
      intro hcon
      exact List.ne_nil_of_mem hin hcon.2
    refine ⟨?_, hin, ?_⟩ <;>
      · unfold dispatch
        rw [h1]
        simp only [if_neg hne]

/-- Witness for C5: a decision naming `negative_comment` with an empty
arguments object is rejected with the missing parameter `game` named and
no invocation; one with both `game` and an undeclared `price` key is
rejected with the extra key `price` named and no invocation. -/
theorem dispatch_argument_mismatch_witness :
    ((dispatch ⟨"negative_comment", []⟩ tools).1 =
        Except.error (RouterError.argumentMismatch ["game"] [])
      ∧ "game" ∈ missingParams negative_comment_tool.params []
      ∧ (dispatch ⟨"negative_comment", []⟩ tools).2 = [])
    ∧ ((dispatch ⟨"negative_comment",
          [("game", JPrim.jstr "Zelda"), ("price", JPrim.jnum 60)]⟩ tools).1 =
        Except.error (RouterError.argumentMismatch [] ["price"])
      ∧ "price" ∈ extraArgs negative_comment_tool.params
          [("game", JPrim.jstr "Zelda"), ("price", JPrim.jnum 60)]
      ∧ (dispatch ⟨"negative_comment",
          [("game", JPrim.jstr "Zelda"), ("price", JPrim.jnum 60)]⟩ tools).2 = []) :=
  ⟨(dispatch_argument_mismatch ⟨"negative_comment", []⟩ tools
      negative_comment_tool rfl).1 "game" (by decide) rfl,
   (dispatch_argument_mismatch
      ⟨"negative_comment", [("game", JPrim.jstr "Zelda"), ("price", JPrim.jnum 60)]⟩
      tools negative_comment_tool rfl).2 "price" (by decide) (by decide)⟩

/-- C8: whenever `dispatch` actually invokes a resolved tool's
implementation (the invocation trace is non-empty), the argument list the
implementation receives is the decision's argument values ordered by the
tool's parameter schema: the value bound for each declared parameter, in
schema order, regardless of the key order in the arguments object. -/
theorem dispatch_positional_binding (d : Decision) (reg : List ToolSpec)
    (spec : ToolSpec)
    (h1 : lookup reg d.toolName = some spec)
    (h2 : (dispatch d reg).2 ≠ []) :
    (dispatch d reg).2 =
      [(spec.name,
        spec.params.map (fun p => (alookup p.1 d.arguments).getD JPrim.jnull))] := by
  unfold dispatch at h2 ⊢
  rw [h1] at h2 ⊢
  dsimp only at h2 ⊢
  by_cases hvalid : missingParams spec.params d.arguments = []
      ∧ extraArgs spec.params d.arguments = []
  · rw [if_pos hvalid] at h2 ⊢
    cases himpl : spec.implementation (bindArgs spec.params d.arguments) with
    | none => rfl
    | some out => rfl
  · rw [if_neg hvalid] at h2
    exact absurd rfl h2

/-- Witness for C8: the fixture `concat` tool with schema `(a, b)` invoked
from an arguments object listing `b` before `a` still receives the values
in schema order `[x, y]`, not object order. -/
theorem dispatch_positional_binding_witness :
    (dispatch ⟨"concat", [("b", JPrim.jstr "y"), ("a", JPrim.jstr "x")]⟩
        [concat_tool]).2 =
      [("concat", [JPrim.jstr "x", JPrim.jstr "y"])] :=
  dispatch_positional_binding
    ⟨"concat", [("b", JPrim.jstr "y"), ("a", JPrim.jstr "x")]⟩
    [concat_tool] concat_tool rfl (by decide)

/-- C9: with the registry holding `negative_comment(game: str)` and
`positive_comment(game: str)`, dispatching `negative_comment` on
`game = "Zelda"` outputs `Zelda seems not better than Genshin Impact...`,
and dispatching `positive_comment` on `game = "Zelda"` outputs
`Zelda is the best game in the world !!!`. -/
theorem dispatch_scenarios :
    (dispatch ⟨"negative_comment", [("game", JPrim.jstr "Zelda")]⟩ tools).1 =
      Except.ok ⟨⟨"negative_comment", [("game", JPrim.jstr "Zelda")]⟩,
        "Zelda seems not better than Genshin Impact..."⟩
    ∧ (dispatch ⟨"positive_comment", [("game", JPrim.jstr "Zelda")]⟩ tools).1 =
      Except.ok ⟨⟨"positive_comment", [("game", JPrim.jstr "Zelda")]⟩,
        "Zelda is the best game in the world !!!"⟩ :=
  ⟨rfl, rfl⟩

/-- C10: the source's dispatch step `tool_chain` depends only on the
`name` and `arguments` fields of the parsed model output: two parsed
outputs agreeing on those two fields produce the same result, so any
additional keys have no effect. -/
theorem tool_chain_depends_only_on_name_and_arguments
    (o1 o2 : List (String × JField))
    (hn : alookup "name" o1 = alookup "name" o2)
    (ha : alookup "arguments" o1 = alookup "arguments" o2) :
    tool_chain o1 = tool_chain o2 := by
  unfold tool_chain
  rw [hn, ha]

/-- Witness for C10: a parsed output carrying an additional `output` key
(as the notebook's `RunnablePassthrough.assign` stage produces) dispatches
exactly as the one with only `name` and `arguments`. -/
theorem tool_chain_extra_keys_witness :
    tool_chain [("name", JField.fprim (JPrim.jstr "positive_comment")),
        ("arguments", JField.fobj [("game", JPrim.jstr "Zelda")])] =
      tool_chain [("name", JField.fprim (JPrim.jstr "positive_comment")),
        ("arguments", JField.fobj [("game", JPrim.jstr "Zelda")]),
        ("output", JField.fprim (JPrim.jstr "Zelda is the best game in the world !!!"))] :=
  tool_chain_depends_only_on_name_and_arguments _ _ rfl rfl

theorem skipWs_cons_of_not_ws {c : Char} (l : List Char)
    (h : isWsChar c = false) : skipWs (c :: l) = c :: l := by
  simp [skipWs, List.dropWhile_cons, h]

theorem skipWs_cons_of_ws {c : Char} (l : List Char)
    (h : isWsChar c = true) : skipWs (c :: l) = skipWs l := by
  simp [skipWs, List.dropWhile_cons, h]

theorem parseStrBody_encode (s : List Char) :
    ∀ rest : List Char, parseStrBody (encodeStr s ++ '\"' :: rest) = some (s, rest) := by
  induction s with
  | nil => intro rest; rfl
  | cons c cs ih =>
    intro rest
    by_cases hc : c = '\"' ∨ c = '\\'
    · have hif : (if c = '\"' ∨ c = '\\' then ['\\', c] else [c]) = ['\\', c] :=
        if_pos hc
      simp only [encodeStr, hif, List.cons_append, List.nil_append]
      show parseStrBodyAux false ('\\' :: c :: (encodeStr cs ++ '\"' :: rest)) = _
      simp only [parseStrBodyAux, reduceIte]
      rw [show parseStrBodyAux false (encodeStr cs ++ '\"' :: rest) = some (cs, rest) from ih rest]
      simp
    · push_neg at hc
      have hif : (if c = '\"' ∨ c = '\\' then ['\\', c] else [c]) = [c] :=
        if_neg (by tauto)
      simp only [encodeStr, hif, List.cons_append, List.nil_append]
      show parseStrBodyAux false (c :: (encodeStr cs ++ '\"' :: rest)) = _
      simp only [parseStrBodyAux, if_neg hc.1, if_neg hc.2]
      rw [show parseStrBodyAux false (encodeStr cs ++ '\"' :: rest) = some (cs, rest) from ih rest]

theorem expectChar_cons {c : Char} (l : List Char) (h : isWsChar c = false) :
    expectChar c (c :: l) = some l := by
  simp [expectChar, skipWs_cons_of_not_ws l h]

theorem charToDigit_digitToChar {d : Nat} (h : d < 10) :
    charToDigit (digitToChar d) = d := by
  interval_cases d <;> decide

theorem isDigitChar_digitToChar {d : Nat} (h : d < 10) :
    isDigitChar (digitToChar d) = true := by
  interval_cases d <;> decide

theorem charsToNat_append_digit (xs : List Char) (c : Char) :
    charsToNat (xs ++ [c]) = 10 * charsToNat xs + charToDigit c := by
  unfold charsToNat
  rw [List.map_append, List.reverse_append]
  simp only [List.map_cons, List.map_nil, List.reverse_cons, List.reverse_nil,
    List.nil_append, List.cons_append, Nat.ofDigits_cons]
  omega

theorem charsToNat_natToCharsAux :
    ∀ (fuel n : Nat), n ≤ fuel → charsToNat (natToCharsAux fuel n) = n := by
  intro fuel
  induction fuel with
  | zero =>
    intro n hn
    have h0 : n = 0 := by omega
    subst h0
    decide
  | succ fuel ih =>
    intro n hn
    by_cases h0 : n = 0
    · subst h0
      unfold natToCharsAux
      simp [charsToNat, Nat.ofDigits]
    · have hdiv : n / 10 ≤ fuel := by omega
      unfold natToCharsAux
      rw [if_neg h0, charsToNat_append_digit, ih _ hdiv,
        charToDigit_digitToChar (Nat.mod_lt n (by omega))]
      omega

theorem charsToNat_natToChars (n : Nat) : charsToNat (natToChars n) = n := by
  unfold natToChars
  by_cases h0 : n = 0
  · subst h0; decide
  · rw [if_neg h0]
    exact charsToNat_natToCharsAux n n (Nat.le_refl n)

theorem natToCharsAux_digits :
    ∀ (fuel n : Nat), ∀ c ∈ natToCharsAux fuel n, isDigitChar c = true := by
  intro fuel
  induction fuel with
  | zero => intro n c hc; simp [natToCharsAux] at hc
  | succ fuel ih =>
    intro n c hc
    unfold natToCharsAux at hc
    by_cases h0 : n = 0
    · rw [if_pos h0] at hc; simp at hc
    · rw [if_neg h0] at hc
      rcases List.mem_append.mp hc with h | h
      · exact ih _ c h
      · have : c = digitToChar (n % 10) := by simpa using h
        rw [this]
        exact isDigitChar_digitToChar (Nat.mod_lt n (by omega))

theorem natToChars_digits (n : Nat) : ∀ c ∈ natToChars n, isDigitChar c = true := by
  intro c hc
  unfold natToChars at hc
  by_cases h0 : n = 0
  · rw [if_pos h0] at hc
    have : c = '0' := by simpa using hc
    rw [this]; decide
  · rw [if_neg h0] at hc
    exact natToCharsAux_digits n n c hc

theorem natToChars_ne_nil (n : Nat) : natToChars n ≠ [] := by
  unfold natToChars
  by_cases h0 : n = 0
  · rw [if_pos h0]; simp
  · rw [if_neg h0]
    cases n with
    | zero => exact absurd rfl h0
    | succ m =>
      unfold natToCharsAux
      rw [if_neg h0]
      simp

theorem takeWhile_append_all (p : Char → Bool) :
    ∀ (ds rest : List Char), (∀ c ∈ ds, p c = true) →
      (∀ c, rest.head? = some c → p c = false) →
      (ds ++ rest).takeWhile p = ds ∧ (ds ++ rest).dropWhile p = rest := by
  intro ds
  induction ds with
  | nil =>
    intro rest _ h2
    cases rest with
    | nil => simp
    | cons c r =>
      have hc : p c = false := h2 c rfl
      simp [List.takeWhile_cons, List.dropWhile_cons, hc]
  | cons d ds ih =>
    intro rest h1 h2
    have hd : p d = true := h1 d (List.mem_cons_self d ds)
    have hrec := ih rest (fun c hc => h1 c (List.mem_cons_of_mem d hc)) h2
    simp [List.takeWhile_cons, List.dropWhile_cons, hd, hrec.1, hrec.2]

theorem digit_not_ws {c : Char} (h : isDigitChar c = true) : isWsChar c = false := by
  by_contra h2
  have h3 : isWsChar c = true := by
    cases he : isWsChar c
    · exact absurd he h2
    · rfl
  unfold isWsChar at h3
  have h4 : c = ' ' ∨ c = '\n' ∨ c = '\t' ∨ c = '\r' := by
    rcases Bool.or_eq_true_iff.mp h3 with h5 | h5
    · rcases Bool.or_eq_true_iff.mp h5 with h6 | h6
      · rcases Bool.or_eq_true_iff.mp h6 with h7 | h7
        · exact Or.inl (eq_of_beq h7)
        · exact Or.inr (Or.inl (eq_of_beq h7))
      · exact Or.inr (Or.inr (Or.inl (eq_of_beq h6)))
    · exact Or.inr (Or.inr (Or.inr (eq_of_beq h5)))
  rcases h4 with rfl | rfl | rfl | rfl <;> exact absurd h (by decide)

theorem digit_ne_quote {c : Char} (h : isDigitChar c = true) : c ≠ '\"' := by
  rintro rfl
  exact absurd h (by decide)

theorem digit_ne_minus {c : Char} (h : isDigitChar c = true) : c ≠ '-' := by
  rintro rfl
  exact absurd h (by decide)

theorem serializeJPrim_shape (v : JPrim) :
    ∃ c cs, serializeJPrim v = c :: cs ∧ isWsChar c = false ∧ c ≠ rbrace := by
  cases v with
  | jstr s => exact ⟨'\"', _, rfl, by decide, by decide⟩
  | jnum n =>
    show ∃ c cs, intToChars n = c :: cs ∧ _
    unfold intToChars
    by_cases hneg : n < 0
    · rw [if_pos hneg]
      exact ⟨'-', _, rfl, by decide, by decide⟩
    · rw [if_neg hneg]
      obtain ⟨d, ds, hds⟩ := List.exists_cons_of_ne_nil (natToChars_ne_nil n.natAbs)
      have hd : isDigitChar d = true :=
        natToChars_digits n.natAbs d (hds ▸ List.mem_cons_self d ds)
      refine ⟨d, ds, hds, digit_not_ws hd, ?_⟩
      rintro rfl
      exact absurd hd (by decide)
  | jbool b => cases b with
    | true => exact ⟨'t', _, rfl, by decide, by decide⟩
    | false => exact ⟨'f', _, rfl, by decide, by decide⟩
  | jnull => exact ⟨'n', _, rfl, by decide, by decide⟩

theorem skipWs_serializeJPrim (v : JPrim) (X : List Char) :
    skipWs (serializeJPrim v ++ X) = serializeJPrim v ++ X := by
  obtain ⟨c, cs, hv, hws, _⟩ := serializeJPrim_shape v
  rw [hv, List.cons_append, skipWs_cons_of_not_ws _ hws]

theorem parseJPrim_serialize (v : JPrim) (rest : List Char)
    (hrest : ∀ c, rest.head? = some c → isDigitChar c = false) :
    parseJPrim (serializeJPrim v ++ rest) = some (v, rest) := by
  cases v with
  | jstr s =>
    show parseJPrim ('\"' :: (encodeStr s.data ++ ['\"']) ++ rest) = _
    rw [List.cons_append, List.append_assoc]
    simp only [parseJPrim, reduceIte, List.cons_append, List.nil_append]
    rw [parseStrBody_encode]
  | jnum n =>
    by_cases hneg : n < 0
    · have hser : serializeJPrim (JPrim.jnum n) = '-' :: natToChars n.natAbs := by
        show intToChars n = _
        unfold intToChars
        rw [if_pos hneg]
      rw [hser, List.cons_append]
      obtain ⟨htake, hdrop⟩ := takeWhile_append_all isDigitChar (natToChars n.natAbs)
        rest (natToChars_digits n.natAbs) hrest
      simp only [parseJPrim, reduceIte, htake, hdrop]
      obtain ⟨d, ds, hds⟩ := List.exists_cons_of_ne_nil (natToChars_ne_nil n.natAbs)
      rw [hds]
      have hval : (-(charsToNat (d :: ds) : Int)) = n := by
        rw [← hds, charsToNat_natToChars]
        omega
      simp [hval]
    · have hser : serializeJPrim (JPrim.jnum n) = natToChars n.natAbs := by
        show intToChars n = _
        unfold intToChars
        rw [if_neg hneg]
      obtain ⟨d, ds, hds⟩ := List.exists_cons_of_ne_nil (natToChars_ne_nil n.natAbs)
      have hd : isDigitChar d = true :=
        natToChars_digits n.natAbs d (hds ▸ List.mem_cons_self d ds)
      obtain ⟨htake, hdrop⟩ := takeWhile_append_all isDigitChar (natToChars n.natAbs)
        rest (natToChars_digits n.natAbs) hrest
      rw [hser, hds, List.cons_append]
      rw [hds, List.cons_append] at htake hdrop
      simp only [parseJPrim, if_neg (digit_ne_quote hd), if_neg (digit_ne_minus hd),
        if_pos hd, htake, hdrop]
      have hval : ((charsToNat (natToChars n.natAbs) : Int)) = n := by
        rw [charsToNat_natToChars]
        omega
      rw [← hds, hval]
  | jbool b =>
    cases b with
    | true =>
      show parseJPrim ('t' :: 'r' :: 'u' :: 'e' :: rest) = _
      simp [parseJPrim, isDigitChar]
    | false =>
      show parseJPrim ('f' :: 'a' :: 'l' :: 's' :: 'e' :: rest) = _
      simp [parseJPrim, isDigitChar]
  | jnull =>
    show parseJPrim ('n' :: 'u' :: 'l' :: 'l' :: rest) = _
    simp [parseJPrim, isDigitChar]

theorem parsePairsLoop_ws (f : Nat) {c : Char} (l : List Char)
    (h : isWsChar c = true) : parsePairsLoop f (c :: l) = parsePairsLoop f l := by
  cases f with
  | zero => rfl
  | succ f =>
    simp only [parsePairsLoop]
    rw [skipWs_cons_of_ws _ h]

theorem head_rbrace_not_digit (tail : List Char) :
    ∀ c, (rbrace :: tail).head? = some c → isDigitChar c = false := by
  intro c hc
  rw [List.head?_cons] at hc
  cases hc
  decide

theorem parsePairsLoop_serialize :
    ∀ (rest : List (String × JPrim)) (k : String) (v : JPrim)
      (tail : List Char) (fuel : Nat),
      rest.length ≤ fuel →
      parsePairsLoop (fuel + 1) (serializeArgs ((k, v) :: rest) ++ rbrace :: tail) =
        some ((k, v) :: rest, tail) := by
  intro rest
  induction rest with
  | nil =>
    intro k v tail fuel _
    simp only [serializeArgs, List.cons_append, List.append_assoc, List.nil_append]
    simp only [parsePairsLoop]
    rw [skipWs_cons_of_not_ws _ (by decide)]
    simp only [reduceIte]
    rw [parseStrBody_encode]
    dsimp only
    rw [expectChar_cons _ (by decide)]
    dsimp only
    rw [skipWs_cons_of_ws _ (by decide), skipWs_serializeJPrim]
    rw [parseJPrim_serialize v _ (head_rbrace_not_digit tail)]
    dsimp only
    rw [skipWs_cons_of_not_ws _ (by decide)]
    dsimp only
    have hne : ¬(rbrace = ',') := by decide
    rw [if_neg hne, if_pos rfl]
  | cons hd rest2 ih =>
    intro k v tail fuel hfuel
    obtain ⟨k2, v2⟩ := hd
    have hlen : 1 ≤ fuel := by
      simp only [List.length_cons] at hfuel
      omega
    obtain ⟨fuel2, rfl⟩ : ∃ fuel2, fuel = fuel2 + 1 :=
      ⟨fuel - 1, by omega⟩
    have hfuel2 : rest2.length ≤ fuel2 := by
      simp only [List.length_cons] at hfuel
      omega
    simp only [serializeArgs, List.cons_append, List.append_assoc, List.nil_append]
    rw [parsePairsLoop]
    rw [skipWs_cons_of_not_ws _ (by decide)]
    simp only [reduceIte]
    rw [parseStrBody_encode]
    dsimp only
    rw [expectChar_cons _ (by decide)]
    dsimp only
    rw [skipWs_cons_of_ws _ (by decide), skipWs_serializeJPrim]
    rw [parseJPrim_serialize v _ (by intro c hc; rw [List.head?_cons] at hc; cases hc; decide)]
    dsimp only
    rw [skipWs_cons_of_not_ws _ (by decide)]
    dsimp only
    simp only [reduceIte]
    rw [parsePairsLoop_ws _ _ (by decide)]
    rw [ih k2 v2 tail fuel2 hfuel2]

theorem length_serializeArgs :
    ∀ args : List (String × JPrim), args.length ≤ (serializeArgs args).length := by
  intro args
  induction args with
  | nil => simp [serializeArgs]
  | cons hd tl ih =>
    obtain ⟨k, v⟩ := hd
    cases tl with
    | nil => simp [serializeArgs]
    | cons hd2 tl2 =>
      simp only [serializeArgs, List.length_cons, List.length_append] at ih ⊢
      omega

theorem serializeArgs_cons_head (k : String) (v : JPrim)
    (rest : List (String × JPrim)) :
    ∃ cs, serializeArgs ((k, v) :: rest) = '\"' :: cs := by
  cases rest with
  | nil => exact ⟨_, rfl⟩
  | cons hd tl => exact ⟨_, rfl⟩

theorem parseArgsObj_serialize (args : List (String × JPrim)) (tail : List Char) :
    parseArgsObj (' ' :: lbrace :: (serializeArgs args ++ rbrace :: tail)) =
      some (args, tail) := by
  unfold parseArgsObj
  rw [skipWs_cons_of_ws _ (by decide), skipWs_cons_of_not_ws _ (by decide)]
  dsimp only
  rw [if_pos rfl]
  cases args with
  | nil =>
    simp only [serializeArgs, List.nil_append]
    rw [skipWs_cons_of_not_ws _ (by decide)]
    dsimp only
    rw [if_pos rfl]
  | cons hd rest =>
    obtain ⟨k, v⟩ := hd
    obtain ⟨cs, hcs⟩ := serializeArgs_cons_head k v rest
    rw [hcs, List.cons_append, skipWs_cons_of_not_ws _ (by decide)]
    dsimp only
    have hne : ¬(('\"' : Char) = rbrace) := by decide
    rw [if_neg hne]
    rw [← List.cons_append, ← hcs]
    have hlen : rest.length ≤ (serializeArgs ((k, v) :: rest) ++ rbrace :: tail).length := by
      have h1 := length_serializeArgs ((k, v) :: rest)
      simp only [List.length_cons, List.length_append] at h1 ⊢
      omega
    obtain ⟨fuel2, hfuel⟩ : ∃ f, (serializeArgs ((k, v) :: rest) ++ rbrace :: tail).length = f :=
      ⟨_, rfl⟩
    rw [hfuel]
    rw [parsePairsLoop_serialize rest k v tail fuel2 (by omega)]

theorem parseKeyColon_serialize (key r : List Char) :
    parseKeyColon key ('\"' :: (encodeStr key ++ '\"' :: ':' :: r)) = some r := by
  unfold parseKeyColon
  rw [expectChar_cons _ (by decide)]
  dsimp only
  rw [parseStrBody_encode]
  dsimp only
  rw [if_pos rfl]
  exact expectChar_cons _ (by decide)

theorem expectChar_ws_cons (a : Char) {c : Char} (l : List Char)
    (h : isWsChar c = true) : expectChar a (c :: l) = expectChar a l := by
  unfold expectChar
  rw [skipWs_cons_of_ws _ h]

theorem parseKeyColon_ws (key : List Char) {c : Char} (l : List Char)
    (h : isWsChar c = true) : parseKeyColon key (c :: l) = parseKeyColon key l := by
  unfold parseKeyColon
  rw [expectChar_ws_cons _ _ h]

/-- C6: parsing the JSON serialization of any decision returns the
decision unchanged: `parse (stringify d) = ok d` for every decision whose
arguments are JSON primitives (strings with arbitrary content, integers,
booleans, null). -/
theorem parse_stringify_roundtrip (d : Decision) :
    parse (stringify d) = Except.ok d := by
  obtain ⟨tn, args⟩ := d
  unfold parse stringify parseDecisionChars
  rw [List.dropWhile_cons]
  have hpred : (!(lbrace == lbrace)) = false := by decide
  rw [hpred]
  rw [if_neg (by decide : ¬(false = true))]
  dsimp only
  rw [if_pos rfl]
  rw [parseKeyColon_serialize]
  dsimp only
  rw [skipWs_cons_of_ws _ (by decide), skipWs_serializeJPrim]
  rw [parseJPrim_serialize (JPrim.jstr tn) _
    (by intro c hc; rw [List.head?_cons] at hc; cases hc; decide)]
  dsimp only
  rw [expectChar_cons _ (by decide)]
  dsimp only
  rw [parseKeyColon_ws _ _ (by decide), parseKeyColon_serialize]
  dsimp only
  rw [parseArgsObj_serialize args [rbrace]]
  dsimp only
  rw [expectChar_cons _ (by decide)]


/-- C7: `parse` tolerates surrounding prose and whitespace: on Scenario
D's raw text it extracts the embedded decision naming `negative_comment`
with argument `game = "DotA2"`. -/
theorem parse_scenarioD :
    parse scenarioD =
      Except.ok ⟨"negative_comment", [("game", JPrim.jstr "DotA2")]⟩ := by
  rfl

end ToolRouter
